import Mathlib

/-!
Verification development for the snap-ally Playwright accessibility reporter.

The definitions below are a shallow embedding of the TypeScript sources:
* `src/SnapAllyReporter.ts` — the session aggregator (`processTestResult`,
  `onTestEnd`, `onEnd`): file-name sanitization, per-payload processing,
  wcag rule aggregation, pass/fail/skip/flaky counters;
* `src/A11yReportAssets.ts` — `copyTestVideo` with its bounded readiness poll;
* the scanner (`scanA11y`) building one `A11yError` per axe violation;
* the legacy reporter's step merge (`getTestSteps` + the per-target merge).

External effects (file system, JSON parsing, rendering, the page) are
modelled as explicit parameters; machine state that the code mutates is
threaded as explicit accumulator values.
-/

namespace SnapAlly

/-! ## Data model (models/index.ts) -/

/-- One affected element instance (interface `Target`). The
`screenshotBase64` payload is irrelevant to the claims and omitted;
all remaining fields are carried verbatim. -/
structure Target where
  element : String
  snippet : String
  html : String
  screenshot : String
  steps : List String
  deriving Repr, DecidableEq

/-- One per distinct violated rule (interface `A11yError`). -/
structure A11yError where
  id : String
  description : String
  wcagRule : String
  severity : String
  help : String
  helpUrl : String
  guideline : String
  total : Nat
  target : List Target
  deriving Repr, DecidableEq

/-- The scan payload handed from scan time to report time (interface
`ReportData`); `pageKey = ""` models a missing/empty (JS-falsy) key.
Colour and ADO fields are plain passthrough strings. -/
structure ReportData where
  pageKey : String
  errors : List A11yError
  deriving Repr, DecidableEq

/-- Playwright test statuses (the `TestStatus` union type). -/
inductive TestStatus where
  | passed
  | failed
  | skipped
  | timedOut
  | interrupted
  deriving Repr, DecidableEq

/-! ## File-name sanitization (SnapAllyReporter.processTestResult)

The code computes
`pageKey.replace(/https?:\/\//, '').replace(/[^a-z0-9]+/gi, '-')
        .replace(/^-+|-+$/g, '').toLowerCase()`.
`replace` with the non-global first regex deletes the FIRST occurrence of
`http://` or `https://` anywhere in the string; the second regex (global,
case-insensitive) collapses every maximal run of non-alphanumeric
characters to one hyphen; the third trims leading and trailing hyphen
runs; then the result is lower-cased. -/

/-- Character class of `[a-z0-9]` under the `i` flag: ASCII letters and digits. -/
def isAlnum (c : Char) : Bool :=
  (decide ('a' ≤ c) && decide (c ≤ 'z')) ||
  (decide ('A' ≤ c) && decide (c ≤ 'Z')) ||
  (decide ('0' ≤ c) && decide (c ≤ '9'))

/-- Delete the first occurrence of `https://` or `http://` anywhere in the
character list, like `.replace(/https?:\/\//, '')`. The two literals can
never match at the same position, so trying `https://` first is exactly
the JS leftmost-match semantics. -/
def removeProtocol : List Char → List Char
  | [] => []
  | c :: rest =>
    if List.isPrefixOf "https://".toList (c :: rest) then rest.drop 7
    else if List.isPrefixOf "http://".toList (c :: rest) then rest.drop 6
    else c :: removeProtocol rest

mutual

/-- Collapse every maximal run of non-alphanumeric characters to a single
hyphen, like `.replace(/[^a-z0-9]+/gi, '-')`. -/
def collapseRuns : List Char → List Char
  | [] => []
  | c :: rest =>
    if isAlnum c then c :: collapseRuns rest
    else '-' :: collapseSkipRun rest

/-- Skip the remainder of the current non-alphanumeric run (already
replaced by one hyphen). -/
def collapseSkipRun : List Char → List Char
  | [] => []
  | c :: rest =>
    if isAlnum c then c :: collapseRuns rest
    else collapseSkipRun rest

end

/-- Remove leading and trailing hyphen runs, like `.replace(/^-+|-+$/g, '')`. -/
def trimHyphens (l : List Char) : List Char :=
  ((l.dropWhile (fun c => c = '-')).reverse.dropWhile (fun c => c = '-')).reverse

/-- The pageKey sanitization pipeline from `processTestResult`:
strip the first protocol occurrence, collapse non-alphanumeric runs to
hyphens, trim hyphens, lower-case. -/
def sanitizePageKey (s : String) : String :=
  String.mk ((trimHyphens (collapseRuns (removeProtocol s.toList))).map Char.toLower)

/-- Title sanitization `test.title.replace(/[^a-z0-9]+/gi, '-').toLowerCase()`
(no protocol stripping, no hyphen trimming). -/
def sanitizeTitle (s : String) : String :=
  String.mk ((collapseRuns s.toList).map Char.toLower)

/-- Modelled from the spec: the spec describes the first sanitization stage
as "stripping the protocol prefix", i.e. removing `https://` or `http://`
only when the key starts with it. Compared below with `removeProtocol`,
which the code actually performs. -/
def specStripProtocolOnly (l : List Char) : List Char :=
  if List.isPrefixOf "https://".toList l then l.drop 8
  else if List.isPrefixOf "http://".toList l then l.drop 7
  else l

/-- Modelled from the spec: the whole sanitization pipeline with the
prefix-only reading of protocol stripping. -/
def specSanitizePageKey (s : String) : String :=
  String.mk ((trimHyphens (collapseRuns (specStripProtocolOnly s.toList))).map Char.toLower)

/-- The per-scan report file name decision of `processTestResult`
(lines 168–187): start from `accessibility-<sanitizedTitle>.html`, with a
1-based index suffix when the test carries more than one a11y data
source; when `pageKey` is truthy and sanitizes to a non-empty string, use
the sanitized key (with the same suffix rule) instead. `numSources` is
`a11yDataSources.length`, `idx` the 0-based position of this payload. -/
def a11yReportName (sanitizedTitle : String) (numSources : Nat) (idx : Nat)
    (pageKey : String) : String :=
  let base :=
    if numSources > 1 then
      "accessibility-" ++ sanitizedTitle ++ "-" ++ toString (idx + 1) ++ ".html"
    else
      "accessibility-" ++ sanitizedTitle ++ ".html"
  if pageKey ≠ "" then
    let key := sanitizePageKey pageKey
    if key ≠ "" then
      if numSources > 1 then key ++ "-" ++ toString (idx + 1) ++ ".html"
      else key ++ ".html"
    else base
  else base

/-! ## Per-test payload processing (SnapAllyReporter.processTestResult)

A test's a11y data sources (`A11y` attachments followed by `A11y`
annotations) are processed in arrival order.  JSON parsing and the
attachment file system are external, so a source is modelled by its parse
outcome: `none` for a source that fails to parse (or whose attachment has
neither body nor existing file — the code hits `continue` either way),
`some rd` for a successfully parsed payload. -/

/-- Sum of `err.total` over a payload's errors, i.e.
`reportData.errors.reduce((sum, err) => sum + (err.total || 0), 0)`. -/
def scanErrorCount (rd : ReportData) : Nat :=
  rd.errors.foldl (fun sum err => sum + err.total) 0

/-- Accumulator of the per-source loop: rendered per-scan file names in
order, the last rendered name (`a11yReportPath`), the running
`a11yErrorCount`, the running `aggregatedA11yErrors`. -/
structure SourcesAcc where
  rendered : List String
  a11yReportPath : Option String
  a11yErrorCount : Nat
  aggregated : List A11yError
  deriving Repr, DecidableEq

/-- One iteration of the `for (const [index, source] of ...)` loop:
a parse failure is skipped (`continue`), a parsed payload computes its
report name (rendering is the external effect recorded in `rendered`),
becomes the new `a11yReportPath`, and contributes its counts under the
`errors.length > 0` guard. -/
def processOneSource (sanitizedTitle : String) (numSources : Nat)
    (acc : SourcesAcc) (p : Nat × Option ReportData) : SourcesAcc :=
  match p.2 with
  | none => acc
  | some rd =>
    let name := a11yReportName sanitizedTitle numSources p.1 rd.pageKey
    let acc := { acc with rendered := acc.rendered ++ [name], a11yReportPath := some name }
    if rd.errors.length > 0 then
      { acc with
        a11yErrorCount := acc.a11yErrorCount + scanErrorCount rd,
        aggregated := acc.aggregated ++ rd.errors }
    else acc

/-- The whole per-source loop of `processTestResult`. -/
def processSources (sanitizedTitle : String) (sources : List (Option ReportData)) :
    SourcesAcc :=
  sources.enum.foldl (processOneSource sanitizedTitle sources.length)
    { rendered := [], a11yReportPath := none, a11yErrorCount := 0, aggregated := [] }

/-! ## Run-level wcag rule aggregation (lines 227–263)

For every parsed payload with a non-empty error list, every error adds
`err.total` to `wcagErrors[err.id].count`, creating the entry with count 0
first when absent.  The count table is modelled as a total function
`String → Nat` (absent rule = 0); the create-then-add of the code is the
pointwise addition below. -/

/-- Fold one payload's errors into the count table, as the
`reportData.errors.forEach` body does (the `errors.length > 0` guard is
kept although it changes no count). -/
def foldScanWcag (w : String → Nat) (rd : ReportData) : String → Nat :=
  if rd.errors.length > 0 then
    rd.errors.foldl (fun w err r => if r = err.id then w r + err.total else w r) w
  else w

/-- Fold every successfully parsed payload of one test. -/
def foldTestWcag (w : String → Nat) (sources : List (Option ReportData)) :
    String → Nat :=
  sources.foldl (fun w s => match s with | none => w | some rd => foldScanWcag w rd) w

/-- One test's raw inputs, as `processTestResult` consumes them:
the project (browser) name, the final status, `test.results.length`
(number of recorded attempts), and the parse outcomes of its a11y data
sources. -/
structure TestInput where
  browser : String
  status : TestStatus
  numResults : Nat
  sources : List (Option ReportData)
  deriving Repr, DecidableEq

/-- The run-level `wcagErrors` count table after a whole run (the
`executionSummary.wcagErrors[rule].count` values), starting from the empty
table. -/
def runWcag (tests : List TestInput) : String → Nat :=
  tests.foldl (fun w t => foldTestWcag w t.sources) (fun _ => 0)

/-- Specification-side sum: one payload's contribution to a rule, i.e. the
sum of `total` over this payload's errors carrying that rule id. -/
def scanRuleTotal (rd : ReportData) (r : String) : Nat :=
  (rd.errors.map (fun err => if err.id = r then err.total else 0)).sum

/-- Specification-side sum over a whole run: the rule's `totalCount` summed
over every successfully parsed payload of every test. -/
def runRuleTotal (tests : List TestInput) (r : String) : Nat :=
  (tests.map (fun t =>
    (t.sources.map (fun s => match s with
      | none => 0
      | some rd => scanRuleTotal rd r)).sum)).sum

/-! ## Pass/fail/skip/flaky counters (lines 277–283 and 314–323) -/

/-- The counter fields shared by the global summary and each browser
summary. -/
structure Counters where
  total : Nat
  totalPassed : Nat
  totalFailed : Nat
  totalSkipped : Nat
  totalFlaky : Nat
  deriving Repr, DecidableEq

/-- The all-zero initial counters of a fresh `TestSummary`. -/
def Counters.init : Counters :=
  { total := 0, totalPassed := 0, totalFailed := 0, totalSkipped := 0, totalFlaky := 0 }

/-- The status switch plus `total++`: `passed`/`failed`/`skipped` bump
their counter, `timedOut`/`interrupted` bump none; `total` always. -/
def statusBump (c : Counters) (st : TestStatus) : Counters :=
  let c :=
    match st with
    | .passed => { c with totalPassed := c.totalPassed + 1 }
    | .failed => { c with totalFailed := c.totalFailed + 1 }
    | .skipped => { c with totalSkipped := c.totalSkipped + 1 }
    | _ => c
  { c with total := c.total + 1 }

/-- Line 315: `test.results.length > 1 && result.status === 'passed'`. -/
def isFlaky (numResults : Nat) (st : TestStatus) : Bool :=
  decide (numResults > 1) && decide (st = .passed)

/-- The global-summary update for one test: the flaky bump then the status
switch and `total++`. -/
def globalBump (c : Counters) (t : TestInput) : Counters :=
  let c :=
    if isFlaky t.numResults t.status then { c with totalFlaky := c.totalFlaky + 1 }
    else c
  statusBump c t.status

/-- One test's effect on the pair of global counters and per-browser
counter table: the global bump, and the status bump on this test's
browser entry (a browser never seen holds the lazily-created zero
counters). -/
def runStep (st : Counters × (String → Counters)) (t : TestInput) :
    Counters × (String → Counters) :=
  (globalBump st.1 t,
   fun b => if b = t.browser then statusBump (st.2 b) t.status else st.2 b)

/-- The run state the counter claims talk about, after a sequence of test
completions. -/
def runCounters (tests : List TestInput) : Counters × (String → Counters) :=
  tests.foldl runStep (Counters.init, fun _ => Counters.init)

/-- Number of processed tests whose status increments none of the
passed/failed/skipped counters. -/
def unemittedCount (tests : List TestInput) : Nat :=
  tests.countP (fun t => t.status = .timedOut ∨ t.status = .interrupted)

/-! ## Violation-scan aggregation (scanA11y, per-violation loop)

One axe violation carries a node list; each node carries its target
selector list and html.  The page's live visibility check is the external
parameter `visible`; a selector's target record is captured only when its
locator is visible.  Screenshot names use the per-violation counter
`errorIdx`, which counts captured targets in traversal order. -/

/-- One axe result node (`violation.nodes[i]`): its target selectors and
serialized html. -/
structure AxeNode where
  target : List String
  html : String
  deriving Repr, DecidableEq

/-- One axe violation, with the fields `scanA11y` reads. -/
structure AxeViolation where
  id : String
  impact : String
  description : String
  help : String
  helpUrl : String
  tags : List String
  nodes : List AxeNode
  deriving Repr, DecidableEq

/-- The captured (selector, html) pairs of the nested
`for node / for selector / if isVisible` loops, in traversal order. -/
def capturedPairs (visible : String → Bool) (nodes : List AxeNode) :
    List (String × String) :=
  (nodes.map (fun n => (n.target.filter visible).map (fun sel => (sel, n.html)))).flatten

/-- Build the violation's target list: the i-th captured pair (0-based,
matching `errorIdx++`) yields a `Target` with screenshot name
`a11y-<ruleId>-<i>.png` and the context steps active at capture. -/
def buildTargets (visible : String → Bool) (ctxSteps : List String)
    (violationId : String) (nodes : List AxeNode) : List Target :=
  (capturedPairs visible nodes).enum.map (fun p =>
    { element := p.2.1
      snippet := p.2.1
      html := p.2.2
      screenshot := "a11y-" ++ violationId ++ "-" ++ toString p.1 ++ ".png"
      steps := ctxSteps })

/-- Build one `A11yError` from one axe violation, as the `errors.push`
at the end of the per-violation loop does; in particular
`total: targets.length || violation.nodes.length`. -/
def buildA11yError (visible : String → Bool) (ctxSteps : List String)
    (v : AxeViolation) : A11yError :=
  let targets := buildTargets visible ctxSteps v.id v.nodes
  { id := v.id
    description := v.description
    wcagRule := ((v.tags.find? (fun t => t.startsWith "wcag")).orElse
      (fun _ => v.tags.get? 1)).getD "N/A"
    severity := if v.impact = "" then "unknown" else v.impact
    help := v.help
    helpUrl := v.helpUrl
    guideline := (v.tags.get? 1).getD "N/A"
    total := if targets.length = 0 then v.nodes.length else targets.length
    target := targets }

/-! ## Step merge (SnapAllyLegacyReporter.getTestSteps and onTestEnd)

`getTestSteps` walks `result.steps` depth-first, pushing a step's title
(when its category is `test.step`) before recursing into its substeps.
The per-target merge takes a snapshot set of the target's existing steps
and appends every driver step not in that snapshot. -/

/-- A Playwright `TestStep`: category, title, nested steps. -/
inductive PwStep where
  | node (category : String) (title : String) (steps : List PwStep)
  deriving Repr

mutual

/-- Flatten one step: own title first (when category is `test.step`),
then the substeps. -/
def flattenStep : PwStep → List String
  | .node c t subs =>
    (if c = "test.step" then [t] else []) ++ flattenStepList subs

/-- Flatten a sibling list left to right (`processSteps`). -/
def flattenStepList : List PwStep → List String
  | [] => []
  | s :: rest => flattenStep s ++ flattenStepList rest

end

/-- The `getTestSteps(result)` entry point over the result's top-level
step list. -/
def getTestSteps (steps : List PwStep) : List String :=
  flattenStepList steps

/-- The per-target merge loop: `existingSteps = new Set(target.steps)`;
each driver step not in that snapshot is pushed onto the step list. -/
def mergeSteps (targetSteps : List String) (pwSteps : List String) : List String :=
  pwSteps.foldl (fun acc s => if s ∈ targetSteps then acc else acc ++ [s]) targetSteps

/-! ## Video readiness poll (A11yReportAssets.copyTestVideo)

The file system is external: `sizeAt p k` is the size `statSync` would
report for path `p` at poll attempt `k` (`none` when the file does not
exist or `statSync` throws).  The code polls up to 10 times, 200 ms
apart; only the attempt count is part of the control flow and modelled.
Among candidates that became ready, the one with the strictly largest
size wins (`size > maxSize`, `maxSize` starting at -1). -/

/-- An entry of `result.attachments` as seen by `copyTestVideo`. -/
structure VideoAttachment where
  name : String
  path : Option String
  deriving Repr, DecidableEq

/-- The external file system: size at path and poll attempt. -/
structure FsModel where
  sizeAt : String → Nat → Option Nat

/-- The bounded readiness poll of the `while (attempts < 10)` loop:
the first attempt index below 10 at which the file exists with non-zero
size, `none` when no attempt succeeds. -/
def pollReadyAttempt (fs : FsModel) (p : String) : Option Nat :=
  (List.range 10).find? (fun k =>
    match fs.sizeAt p k with
    | some s => decide (0 < s)
    | none => false)

/-- The value driving the best-candidate comparison for one attachment:
its size re-read after the poll succeeded (at the succeeding attempt),
`none` when the attachment carries no path, never becomes ready, or the
re-read stat throws. -/
def readyVal (fs : FsModel) (a : VideoAttachment) : Option Nat :=
  match a.path with
  | none => none
  | some p =>
    match pollReadyAttempt fs p with
    | none => none
    | some k => fs.sizeAt p k

/-- One iteration of the candidate loop, threading
`(bestVideo, maxSize)` with `maxSize : Int` starting at -1. -/
def videoStep (fs : FsModel) (acc : Option String × Int) (a : VideoAttachment) :
    Option String × Int :=
  match readyVal fs a with
  | none => acc
  | some s => if (s : Int) > acc.2 then (a.path, (s : Int)) else acc

/-- Characters after the last `/` of a path, accumulating the current
segment in reverse. -/
def baseNameAux : List Char → List Char → List Char
  | [], acc => acc.reverse
  | c :: rest, acc =>
    if c = '/' then baseNameAux rest [] else baseNameAux rest (c :: acc)

/-- The file name `copyToFolder` returns for a copied path: its base name
(`path.basename` on a slash-separated path without trailing slash). -/
def baseName (p : String) : String :=
  String.mk (baseNameAux p.toList [])

/-- The whole `copyTestVideo`: filter the `video` attachments, pick the
best ready candidate, return its copied base name, or `""` when none is
ready. -/
def copyTestVideo (fs : FsModel) (attachments : List VideoAttachment) : String :=
  let videos := attachments.filter (fun a => a.name = "video")
  let best := videos.foldl (videoStep fs) (none, -1)
  match best.1 with
  | some p => baseName p
  | none => ""

/-! ## Run-end synchronization (onTestEnd / onEnd)

`onTestEnd` pushes each test's `processTestResult()` promise onto
`this.tasks` without awaiting it; `onEnd` runs
`await Promise.all(this.tasks)` before rendering `summary.html`.
Cooperative concurrency is modelled by a step relation over a scheduler
state: each in-flight per-test task is its list of still-pending render
events (per-scan a11y reports, then the execution report); any task may
take its next step at any time, and the run-end continuation may emit the
summary render only when every task's list is exhausted — that guard is
the `Promise.all` join barrier. -/

/-- A rendering side effect, identified by the file it writes. -/
inductive REvent where
  | renderTest (file : String)
  | renderSummary
  deriving Repr, DecidableEq

/-- The render events of one test's `processTestResult` task: its per-scan
report files in order, then its execution report file
`execution-<sanitizedTitle>.html`. -/
def taskEvents (title : String) (t : TestInput) : List REvent :=
  ((processSources (sanitizeTitle title) t.sources).rendered).map REvent.renderTest
    ++ [REvent.renderTest ("execution-" ++ sanitizeTitle title ++ ".html")]

/-- Scheduler state: the pending suffix of every per-test task, whether
the run-end continuation still has its summary render pending, and the
log of render events performed so far. -/
structure SchedState where
  tasks : List (List REvent)
  endPending : Bool
  log : List REvent

/-- One scheduler step: either some per-test task performs its next
pending render, or the run-end continuation passes the `Promise.all`
barrier — enabled only when every task is done — and renders the
summary. -/
inductive SchedStep : SchedState → SchedState → Prop where
  | taskStep (ts₁ : List (List REvent)) (e : REvent) (rest : List REvent)
      (ts₂ : List (List REvent)) (p : Bool) (log : List REvent) :
      SchedStep
        { tasks := ts₁ ++ (e :: rest) :: ts₂, endPending := p, log := log }
        { tasks := ts₁ ++ rest :: ts₂, endPending := p, log := log ++ [e] }
  | endStep (ts : List (List REvent)) (log : List REvent)
      (hall : ∀ t ∈ ts, t = []) :
      SchedStep
        { tasks := ts, endPending := true, log := log }
        { tasks := ts, endPending := false, log := log ++ [REvent.renderSummary] }

/-- Reachability under scheduler steps. -/
def SchedReach : SchedState → SchedState → Prop :=
  Relation.ReflTransGen SchedStep

/-- The state at the moment `onEnd` is entered, at the latest: every test's
task queued (a task may also have already run part or all of its events —
those states are themselves reachable from this one). -/
def initSched (tasks : List (List REvent)) : SchedState :=
  { tasks := tasks, endPending := true, log := [] }

/-- Number of pending render events across all tasks. -/
def pendingCount (s : SchedState) : Nat :=
  (s.tasks.map List.length).sum

/-! ## Helper lemmas -/

/-- Folding one payload's errors into the count table adds exactly the
payload's per-rule sum at every rule. -/
lemma foldScanWcag_apply (rd : ReportData) (w : String → Nat) (r : String) :
    foldScanWcag w rd r = w r + scanRuleTotal rd r := by
  unfold foldScanWcag scanRuleTotal
  by_cases h : rd.errors.length > 0
  · simp only [if_pos h]
    clear h
    induction rd.errors generalizing w with
    | nil => simp
    | cons e rest ih =>
      simp only [List.foldl_cons, List.map_cons, List.sum_cons]
      rw [ih]
      by_cases he : r = e.id
      · simp [he, Nat.add_assoc]
      · have : ¬ e.id = r := fun hh => he hh.symm
        simp [he, this]
  · have hnil : rd.errors = [] := List.length_eq_zero.mp (Nat.eq_zero_of_not_pos h)
    simp [if_neg h, hnil]

/-- Folding one test's parsed payloads adds the test's per-rule sum. -/
lemma foldTestWcag_apply (sources : List (Option ReportData)) (w : String → Nat)
    (r : String) :
    foldTestWcag w sources r =
      w r + (sources.map (fun s => match s with
        | none => 0
        | some rd => scanRuleTotal rd r)).sum := by
  unfold foldTestWcag
  induction sources generalizing w with
  | nil => simp
  | cons s rest ih =>
    cases s with
    | none => simpa using ih w
    | some rd =>
      simp only [List.foldl_cons, List.map_cons, List.sum_cons]
      rw [ih, foldScanWcag_apply, Nat.add_assoc]

/-- The run-level count table is the spec-side per-rule sum. -/
lemma runWcag_apply (tests : List TestInput) (r : String) :
    runWcag tests r = runRuleTotal tests r := by
  unfold runWcag runRuleTotal
  have main : ∀ (ts : List TestInput) (w : String → Nat),
      (ts.foldl (fun w t => foldTestWcag w t.sources) w) r =
        w r + (ts.map (fun t =>
          (t.sources.map (fun s => match s with
            | none => 0
            | some rd => scanRuleTotal rd r)).sum)).sum := by
    intro ts
    induction ts with
    | nil => intro w; simp
    | cons t rest ih =>
      intro w
      simp only [List.foldl_cons, List.map_cons, List.sum_cons]
      rw [ih, foldTestWcag_apply, Nat.add_assoc]
  simpa using main tests (fun _ => 0)

/-- A concrete run for the 3+3 example: one test carrying two parsed
payloads, each reporting one violation of rule `color-contrast` with
`total = 3`. -/
def exampleScan : ReportData :=
  { pageKey := "https://example.com"
    errors := [{ id := "color-contrast", description := "d", wcagRule := "wcag2aa",
                 severity := "serious", help := "h", helpUrl := "u",
                 guideline := "wcag2aa", total := 3, target := [] }] }

/-- The example run of the claim: two scans, each reporting 3 targets for
the same rule. -/
def exampleRun : List TestInput :=
  [{ browser := "chromium", status := .passed, numResults := 1,
     sources := [some exampleScan, some exampleScan] }]

/-- C1: the run-level rule aggregate maps each rule id to the sum of that
rule's `totalCount` over every successfully parsed scan payload of every
test — additive, never overwritten or deduplicated; in particular, after
two scans each reporting 3 targets for the same rule the count is 6. -/
theorem claim1_ruleAggregate_additive :
    (∀ (tests : List TestInput) (r : String), runWcag tests r = runRuleTotal tests r)
    ∧ runWcag exampleRun "color-contrast" = 6 :=
  ⟨runWcag_apply, by decide⟩

/-- C9: `isFlaky` holds iff the test has more than one recorded attempt
and the final status is passed; the global flaky counter is bumped exactly
under that condition, and a test passing on its first attempt is never
counted flaky. -/
theorem claim9_isFlaky_iff :
    (∀ (n : Nat) (st : TestStatus), isFlaky n st = true ↔ (1 < n ∧ st = .passed))
    ∧ (∀ (c : Counters) (t : TestInput),
        (globalBump c t).totalFlaky =
          c.totalFlaky + (if 1 < t.numResults ∧ t.status = .passed then 1 else 0))
    ∧ (∀ st : TestStatus, isFlaky 1 st = false) := by
  refine ⟨?_, ?_, ?_⟩
  · intro n st
    simp [isFlaky]
  · intro c t
    unfold globalBump statusBump
    by_cases h : isFlaky t.numResults t.status = true
    · have hcond : 1 < t.numResults ∧ t.status = .passed := by
        simpa [isFlaky] using h
      cases ht : t.status <;> simp_all [isFlaky]
    · have hcond : ¬ (1 < t.numResults ∧ t.status = .passed) := by
        simpa [isFlaky] using h
      cases ht : t.status <;> simp_all [isFlaky]
      split <;> simp_all
  · intro st
    simp [isFlaky]

/-! ## C3: index suffixes on per-scan file names -/

/-- The stem a payload's file name is built from: the sanitized pageKey
when truthy and non-empty after sanitization, else the generic
`accessibility-<title>` stem. -/
def reportStem (sanitizedTitle : String) (pageKey : String) : String :=
  if pageKey ≠ "" ∧ sanitizePageKey pageKey ≠ "" then sanitizePageKey pageKey
  else "accessibility-" ++ sanitizedTitle

/-- C3: with more than one payload on the test, the payload at 0-based
index `idx` gets the 1-based suffix `-(idx+1)` on its stem — whatever the
sanitized keys are, identical or different; with exactly one payload the
stem carries no suffix. -/
theorem claim3_index_suffix (title key : String) (n idx : Nat) :
    (n > 1 → a11yReportName title n idx key =
      reportStem title key ++ "-" ++ toString (idx + 1) ++ ".html")
    ∧ a11yReportName title 1 idx key = reportStem title key ++ ".html" := by
  constructor
  · intro hn
    unfold a11yReportName reportStem
    by_cases hk : key = ""
    · simp [hk, hn, String.append_assoc]
    · by_cases hs : sanitizePageKey key = ""
      · simp [hk, hs, hn, String.append_assoc]
      · simp [hk, hs, hn, String.append_assoc]
  · unfold a11yReportName reportStem
    by_cases hk : key = ""
    · simp [hk]
    · by_cases hs : sanitizePageKey key = ""
      · simp [hk, hs]
      · simp [hk, hs]

/-- Witness for C3 at concrete inputs: two payloads with the same
(empty-sanitizing) keys get suffixes `-1` and `-2`; a single payload gets
none. -/
theorem claim3_index_suffix_witness :
    a11yReportName "my-test" 2 0 "Home" = "home-1.html"
    ∧ a11yReportName "my-test" 2 1 "Home" = "home-2.html"
    ∧ a11yReportName "my-test" 1 0 "Home" = "home.html" := by
  refine ⟨?_, ?_, ?_⟩
  · have h := (claim3_index_suffix "my-test" "Home" 2 0).1 (by decide)
    rw [h]; decide
  · have h := (claim3_index_suffix "my-test" "Home" 2 1).1 (by decide)
    rw [h]; decide
  · have h := (claim3_index_suffix "my-test" "Home" 1 0).2
    rw [h]; decide

/-! ## C4: sanitization pipeline -/

/-- The head surviving a `dropWhile` fails the dropped predicate. -/
lemma head_dropWhile_false (p : Char → Bool) :
    ∀ (l : List Char) (c : Char), (l.dropWhile p).head? = some c → p c = false := by
  intro l
  induction l with
  | nil => intro c h; simp at h
  | cons a rest ih =>
    intro c h
    by_cases ha : p a
    · rw [List.dropWhile_cons_of_pos ha] at h
      exact ih c h
    · rw [List.dropWhile_cons_of_neg ha] at h
      simp at h
      subst h
      exact Bool.eq_false_iff.mpr ha

/-- `trimHyphens` never ends in a hyphen. -/
lemma trimHyphens_getLast (l : List Char) (c : Char)
    (h : (trimHyphens l).getLast? = some c) : c ≠ '-' := by
  unfold trimHyphens at h
  rw [List.getLast?_reverse] at h
  have := head_dropWhile_false (fun c => c = '-') ((l.dropWhile (fun c => c = '-')).reverse) c h
  simpa using this

/-- `trimHyphens` never starts with a hyphen: the reverse-side trim keeps
a prefix of the already-left-trimmed list, so a surviving head is the
left-trim's head. -/
lemma trimHyphens_head (l : List Char) (c : Char)
    (h : (trimHyphens l).head? = some c) : c ≠ '-' := by
  unfold trimHyphens at h
  set x := l.dropWhile (fun c => c = '-') with hx
  set y := x.reverse.dropWhile (fun c => c = '-') with hy
  have hsub : y <:+ x.reverse := List.dropWhile_suffix _
  obtain ⟨t, ht⟩ := hsub
  have hx2 : x = y.reverse ++ t.reverse := by
    have := congrArg List.reverse ht
    simpa using this.symm
  have hxhead : x.head? = some c := by
    rw [hx2, List.head?_append, h]
    rfl
  have := head_dropWhile_false (fun c => c = '-') l c (hx ▸ hxhead)
  simpa using this

/-- C4 counterexample: the code's first regex `.replace(/https?:\/\//, '')`
is unanchored, so it deletes the first occurrence of the protocol anywhere
in the key, not only a protocol prefix.  For the key
`see https://a.com` — which does not start with a protocol, so the
prefix-stripping reading leaves it intact — the code produces
`see-a-com.html` while the claimed derivation produces
`see-https-a-com.html`. -/
theorem claim4_counterexample :
    a11yReportName "my-test" 1 0 "see https://a.com" = "see-a-com.html"
    ∧ specSanitizePageKey "see https://a.com" = "see-https-a-com"
    ∧ a11yReportName "my-test" 1 0 "see https://a.com" ≠
        specSanitizePageKey "see https://a.com" ++ ".html" := by
  refine ⟨by decide, by decide, by decide⟩

/-- C4 as amended: the name is derived by deleting the first occurrence of
`https://` or `http://` anywhere in the key (which on keys starting with
the protocol is exactly stripping the prefix), collapsing every run of
non-alphanumeric characters to a single hyphen, trimming leading and
trailing hyphens, and lower-casing; the claim's example still sanitizes to
`example-com-home-page`; the trim stage guarantees no leading or trailing
hyphen survives; and when sanitization comes up empty (or the key is
absent) the name falls back to `accessibility-<sanitizedTitle>.html`. -/
theorem claim4_sanitize_amended :
    sanitizePageKey "https://Example.com/Home Page!!" = "example-com-home-page"
    ∧ a11yReportName "my-test" 1 0 "https://Example.com/Home Page!!"
        = "example-com-home-page.html"
    ∧ (∀ (s : String),
        sanitizePageKey s =
          String.mk ((trimHyphens (collapseRuns (removeProtocol s.toList))).map
            Char.toLower))
    ∧ (∀ (l : List Char) (c : Char),
        ((trimHyphens l).head? = some c → c ≠ '-')
        ∧ ((trimHyphens l).getLast? = some c → c ≠ '-'))
    ∧ (∀ (title key : String), key = "" →
        a11yReportName title 1 0 key = "accessibility-" ++ title ++ ".html")
    ∧ (∀ (title key : String), sanitizePageKey key = "" →
        a11yReportName title 1 0 key = "accessibility-" ++ title ++ ".html")
    ∧ (∀ (title key : String), key ≠ "" → sanitizePageKey key ≠ "" →
        a11yReportName title 1 0 key = sanitizePageKey key ++ ".html") := by
  refine ⟨by decide, by decide, ?_, ?_, ?_, ?_, ?_⟩
  · intro s
    rfl
  · intro l c
    exact ⟨trimHyphens_head l c, trimHyphens_getLast l c⟩
  · intro title key hk
    simp [a11yReportName, hk]
  · intro title key hs
    unfold a11yReportName
    by_cases hk : key = ""
    · simp [hk]
    · simp [hk, hs]
  · intro title key hk hs
    simp [a11yReportName, hk, hs]

/-- Witness for C4 (amended): the fallback and sanitized-key branches at
concrete inputs. -/
theorem claim4_sanitize_amended_witness :
    a11yReportName "my-test" 1 0 "!!!" = "accessibility-my-test.html"
    ∧ a11yReportName "my-test" 1 0 "" = "accessibility-my-test.html"
    ∧ a11yReportName "my-test" 1 0 "Home Page" = "home-page.html" := by
  refine ⟨?_, ?_, ?_⟩
  · exact claim4_sanitize_amended.2.2.2.2.2.1 "my-test" "!!!" (by decide)
  · exact claim4_sanitize_amended.2.2.2.2.1 "my-test" "" rfl
  · have h := claim4_sanitize_amended.2.2.2.2.2.2 "my-test" "Home Page"
      (by decide) (by decide)
    rw [h]; decide

/-! ## C10: counter bookkeeping -/

lemma statusBump_fields (c : Counters) (st : TestStatus) :
    (statusBump c st).total = c.total + 1
    ∧ (statusBump c st).totalPassed = c.totalPassed + (if st = .passed then 1 else 0)
    ∧ (statusBump c st).totalFailed = c.totalFailed + (if st = .failed then 1 else 0)
    ∧ (statusBump c st).totalSkipped = c.totalSkipped + (if st = .skipped then 1 else 0) := by
  cases st <;> simp [statusBump]

/-- The flaky bump touches only `totalFlaky`. -/
lemma flakyBump_fields (c : Counters) (b : Bool) :
    (if b then { c with totalFlaky := c.totalFlaky + 1 } else c).total = c.total
    ∧ (if b then { c with totalFlaky := c.totalFlaky + 1 } else c).totalPassed = c.totalPassed
    ∧ (if b then { c with totalFlaky := c.totalFlaky + 1 } else c).totalFailed = c.totalFailed
    ∧ (if b then { c with totalFlaky := c.totalFlaky + 1 } else c).totalSkipped = c.totalSkipped := by
  cases b <;> simp

lemma globalBump_fields (c : Counters) (t : TestInput) :
    (globalBump c t).total = c.total + 1
    ∧ (globalBump c t).totalPassed = c.totalPassed + (if t.status = .passed then 1 else 0)
    ∧ (globalBump c t).totalFailed = c.totalFailed + (if t.status = .failed then 1 else 0)
    ∧ (globalBump c t).totalSkipped = c.totalSkipped + (if t.status = .skipped then 1 else 0) := by
  unfold globalBump
  obtain ⟨hf1, hf2, hf3, hf4⟩ := flakyBump_fields c (isFlaky t.numResults t.status)
  obtain ⟨hs1, hs2, hs3, hs4⟩ := statusBump_fields
    (if isFlaky t.numResults t.status then { c with totalFlaky := c.totalFlaky + 1 } else c)
    t.status
  refine ⟨?_, ?_, ?_, ?_⟩
  · rw [hs1, hf1]
  · rw [hs2, hf2]
  · rw [hs3, hf3]
  · rw [hs4, hf4]

/-- Exactly one of the four status buckets (passed, failed, skipped,
timedOut-or-interrupted) gains a test. -/
lemma status_partition (st : TestStatus) :
    (if st = TestStatus.passed then 1 else 0) + (if st = TestStatus.failed then 1 else 0)
      + (if st = TestStatus.skipped then 1 else 0)
      + (if st = TestStatus.timedOut ∨ st = TestStatus.interrupted then 1 else 0) = 1 := by
  cases st <;> simp

/-- The conservation law behind C10 for the global fold: the
passed+failed+skipped deficit against `total` is exactly the number of
timedOut/interrupted tests processed. -/
lemma foldGlobal_inv (tests : List TestInput) : ∀ c : Counters,
    (tests.foldl globalBump c).total + c.totalPassed + c.totalFailed + c.totalSkipped
    = (tests.foldl globalBump c).totalPassed + (tests.foldl globalBump c).totalFailed
      + (tests.foldl globalBump c).totalSkipped + c.total + unemittedCount tests := by
  induction tests with
  | nil =>
    intro c
    simp only [List.foldl_nil]
    unfold unemittedCount
    simp only [List.countP_nil]
    omega
  | cons t rest ih =>
    intro c
    simp only [List.foldl_cons]
    have hrest := ih (globalBump c t)
    obtain ⟨h1, h2, h3, h4⟩ := globalBump_fields c t
    have hpart := status_partition t.status
    have hcount : unemittedCount (t :: rest)
        = unemittedCount rest
          + (if t.status = TestStatus.timedOut ∨ t.status = TestStatus.interrupted
             then 1 else 0) := by
      simp [unemittedCount, List.countP_cons]
    rw [hcount]
    omega

/-- The analogous conservation law for the browser-scoped status fold. -/
lemma foldStatus_inv (sts : List TestStatus) : ∀ c : Counters,
    (sts.foldl statusBump c).total + c.totalPassed + c.totalFailed + c.totalSkipped
    = (sts.foldl statusBump c).totalPassed + (sts.foldl statusBump c).totalFailed
      + (sts.foldl statusBump c).totalSkipped + c.total
      + sts.countP (fun st => st = TestStatus.timedOut ∨ st = TestStatus.interrupted) := by
  induction sts with
  | nil =>
    intro c
    simp only [List.foldl_nil, List.countP_nil]
    omega
  | cons st rest ih =>
    intro c
    simp only [List.foldl_cons, List.countP_cons]
    have hrest := ih (statusBump c st)
    obtain ⟨h1, h2, h3, h4⟩ := statusBump_fields c st
    have hpart := status_partition st
    have hcond : (if (st = TestStatus.timedOut ∨ st = TestStatus.interrupted) then 1 else 0)
        = if (decide (st = TestStatus.timedOut ∨ st = TestStatus.interrupted)) = true
          then 1 else 0 := by
      split <;> simp_all
    omega

/-- The pair fold of `runCounters` projects to the global fold and, per
browser, to the status fold over that browser's tests. -/
lemma runCounters_proj (tests : List TestInput) :
    (runCounters tests).1 = tests.foldl globalBump Counters.init
    ∧ ∀ b : String, (runCounters tests).2 b
        = ((tests.filter (fun t => t.browser = b)).map (fun t => t.status)).foldl
            statusBump Counters.init := by
  unfold runCounters
  have main : ∀ (ts : List TestInput) (g : Counters) (bs : String → Counters),
      (ts.foldl runStep (g, bs)).1 = ts.foldl globalBump g
      ∧ ∀ b, (ts.foldl runStep (g, bs)).2 b
        = ((ts.filter (fun t => t.browser = b)).map (fun t => t.status)).foldl
            statusBump (bs b) := by
    intro ts
    induction ts with
    | nil => intro g bs; simp
    | cons t rest ih =>
      intro g bs
      simp only [List.foldl_cons]
      have hstep : runStep (g, bs) t
          = (globalBump g t,
             fun b => if b = t.browser then statusBump (bs b) t.status else bs b) := rfl
      rw [hstep]
      refine ⟨(ih _ _).1, ?_⟩
      intro b
      rw [(ih _ _).2 b]
      by_cases hb : t.browser = b
      · simp [hb]
      · have hb2 : ¬ b = t.browser := fun hh => hb hh.symm
        simp [hb, hb2]
  exact main tests Counters.init (fun _ => Counters.init)

/-- The global counter equation at the initial state. -/
lemma runCounters_global_eq (tests : List TestInput) :
    (runCounters tests).1.total
    = (runCounters tests).1.totalPassed + (runCounters tests).1.totalFailed
      + (runCounters tests).1.totalSkipped + unemittedCount tests := by
  rw [(runCounters_proj tests).1]
  have h := foldGlobal_inv tests Counters.init
  simp only [Counters.init] at h
  simp only [Counters.init]
  omega

/-- The per-browser counter equation at the initial state. -/
lemma runCounters_browser_eq (tests : List TestInput) (b : String) :
    ((runCounters tests).2 b).total
    = ((runCounters tests).2 b).totalPassed + ((runCounters tests).2 b).totalFailed
      + ((runCounters tests).2 b).totalSkipped
      + ((tests.filter (fun t => t.browser = b)).map (fun t => t.status)).countP
          (fun st => st = TestStatus.timedOut ∨ st = TestStatus.interrupted) := by
  rw [(runCounters_proj tests).2 b]
  have h := foldStatus_inv
    ((tests.filter (fun t => t.browser = b)).map (fun t => t.status)) Counters.init
  simp only [Counters.init] at h
  simp only [Counters.init]
  omega

/-- C10: in the global summary and every per-browser summary,
`totalPassed + totalFailed + totalSkipped ≤ total` after any sequence of
test completions, and the inequality is strict as soon as some completed
test (for a browser summary: some test of that browser) finished
`timedOut` or `interrupted` — those statuses bump `total` but none of the
three counters. -/
theorem claim10_counter_slack (tests : List TestInput) :
    ((runCounters tests).1.totalPassed + (runCounters tests).1.totalFailed
      + (runCounters tests).1.totalSkipped ≤ (runCounters tests).1.total)
    ∧ (∀ b : String,
        ((runCounters tests).2 b).totalPassed + ((runCounters tests).2 b).totalFailed
          + ((runCounters tests).2 b).totalSkipped ≤ ((runCounters tests).2 b).total)
    ∧ ((∃ t ∈ tests, t.status = TestStatus.timedOut ∨ t.status = TestStatus.interrupted) →
        (runCounters tests).1.totalPassed + (runCounters tests).1.totalFailed
          + (runCounters tests).1.totalSkipped < (runCounters tests).1.total)
    ∧ (∀ b : String,
        (∃ t ∈ tests, t.browser = b
            ∧ (t.status = TestStatus.timedOut ∨ t.status = TestStatus.interrupted)) →
        ((runCounters tests).2 b).totalPassed + ((runCounters tests).2 b).totalFailed
          + ((runCounters tests).2 b).totalSkipped < ((runCounters tests).2 b).total) := by
  have hG := runCounters_global_eq tests
  refine ⟨by omega, ?_, ?_, ?_⟩
  · intro b
    have hB := runCounters_browser_eq tests b
    omega
  · intro hex
    have hpos : 0 < unemittedCount tests := by
      rw [unemittedCount, List.countP_pos_iff]
      obtain ⟨t, htm, hst⟩ := hex
      exact ⟨t, htm, by simpa using hst⟩
    omega
  · intro b hex
    have hB := runCounters_browser_eq tests b
    have hpos : 0 < ((tests.filter (fun t => t.browser = b)).map (fun t => t.status)).countP
        (fun st => st = TestStatus.timedOut ∨ st = TestStatus.interrupted) := by
      rw [List.countP_pos_iff]
      obtain ⟨t, htm, hbr, hst⟩ := hex
      refine ⟨t.status, ?_, by simpa using hst⟩
      exact List.mem_map_of_mem _ (List.mem_filter.mpr ⟨htm, by simpa using hbr⟩)
    omega

/-- A concrete one-test run whose only test timed out. -/
def timedOutRun : List TestInput :=
  [{ browser := "chromium", status := TestStatus.timedOut, numResults := 1, sources := [] }]

/-- Witness for C10: a concrete run with one timedOut chromium test makes
the global inequality strict (0 + 0 + 0 < 1). -/
theorem claim10_counter_slack_witness :
    (runCounters timedOutRun).1.totalPassed
      + (runCounters timedOutRun).1.totalFailed
      + (runCounters timedOutRun).1.totalSkipped
      < (runCounters timedOutRun).1.total :=
  (claim10_counter_slack timedOutRun).2.2.1
    ⟨{ browser := "chromium", status := TestStatus.timedOut, numResults := 1, sources := [] },
      by simp [timedOutRun], Or.inl rfl⟩

/-! ## C5: totalCount versus captured targets -/

lemma buildTargets_length (visible : String → Bool) (ctx : List String)
    (vid : String) (nodes : List AxeNode) :
    (buildTargets visible ctx vid nodes).length = (capturedPairs visible nodes).length := by
  simp [buildTargets]

/-- C5: for every built `A11yError`, `total ≥ targets.length`; equality
holds when every affected node was visible at capture time (each node
carrying at least one selector, as axe guarantees); and when evidence
capture is skipped for every node (none visible), `total` falls back to
the raw analyzer node count. -/
theorem claim5_totalCount (visible : String → Bool) (ctx : List String)
    (v : AxeViolation) :
    ((buildA11yError visible ctx v).target.length ≤ (buildA11yError visible ctx v).total)
    ∧ ((∀ n ∈ v.nodes, n.target ≠ []) →
        (∀ n ∈ v.nodes, ∀ sel ∈ n.target, visible sel = true) →
        (buildA11yError visible ctx v).total = (buildA11yError visible ctx v).target.length)
    ∧ ((∀ n ∈ v.nodes, ∀ sel ∈ n.target, visible sel = false) →
        (buildA11yError visible ctx v).total = v.nodes.length) := by
  have htarget : (buildA11yError visible ctx v).target
      = buildTargets visible ctx v.id v.nodes := rfl
  have htotal : (buildA11yError visible ctx v).total
      = if (buildTargets visible ctx v.id v.nodes).length = 0 then v.nodes.length
        else (buildTargets visible ctx v.id v.nodes).length := rfl
  refine ⟨?_, ?_, ?_⟩
  · rw [htarget, htotal]
    by_cases h : (buildTargets visible ctx v.id v.nodes).length = 0
    · simp [h]
    · simp [h]
  · intro hne hvis
    rw [htarget, htotal]
    cases hn : v.nodes with
    | nil =>
      simp [buildTargets_length, capturedPairs, hn]
    | cons n ns =>
      have hmem : n ∈ v.nodes := by rw [hn]; exact List.mem_cons_self n ns
      have hfil : n.target.filter visible = n.target :=
        List.filter_eq_self.mpr (fun sel hs => hvis n hmem sel hs)
      have hlen : (buildTargets visible ctx v.id (n :: ns)).length ≠ 0 := by
        rw [buildTargets_length]
        unfold capturedPairs
        simp only [List.map_cons, List.flatten_cons, List.length_append, List.length_map,
          hfil]
        have : n.target.length ≠ 0 := by
          intro h0
          exact hne n hmem (List.length_eq_zero.mp h0)
        omega
      rw [if_neg hlen]
  · intro hinv
    have hcap : capturedPairs visible v.nodes = [] := by
      unfold capturedPairs
      rw [List.flatten_eq_nil_iff]
      intro x hx
      obtain ⟨n, hn, rfl⟩ := List.mem_map.mp hx
      have hfil : n.target.filter visible = [] := by
        rw [List.filter_eq_nil_iff]
        exact fun sel hs => by simp [hinv n hn sel hs]
      rw [hfil]
      rfl
    have hlen : (buildTargets visible ctx v.id v.nodes).length = 0 := by
      rw [buildTargets_length, hcap]
      rfl
    rw [htotal, if_pos hlen]

/-- A concrete two-node violation for the C5 witness. -/
def exampleViolation : AxeViolation :=
  { id := "image-alt", impact := "critical", description := "d", help := "h",
    helpUrl := "u", tags := ["cat.text-alternatives", "wcag2a", "wcag111"],
    nodes := [{ target := ["img.hero"], html := "<img>" },
              { target := ["#logo"], html := "<img id=logo>" }] }

/-- Witness for C5: with every node visible the total equals the target
count (2); with no node visible the total falls back to the node count
(2) while no target is captured. -/
theorem claim5_totalCount_witness :
    (buildA11yError (fun _ => true) [] exampleViolation).total
      = (buildA11yError (fun _ => true) [] exampleViolation).target.length
    ∧ (buildA11yError (fun _ => false) [] exampleViolation).total
      = exampleViolation.nodes.length
    ∧ (buildA11yError (fun _ => false) [] exampleViolation).target.length = 0 := by
  refine ⟨?_, ?_, by decide⟩
  · exact (claim5_totalCount (fun _ => true) [] exampleViolation).2.1
      (by decide) (by decide)
  · exact (claim5_totalCount (fun _ => false) [] exampleViolation).2.2
      (by decide)

/-! ## C6: malformed payloads are skipped, siblings survive -/

/-- The per-source loop, started at any index and accumulator: the outputs
are exactly those of the successfully parsed payloads, each at its own
source position; parse failures contribute nothing. -/
lemma processSources_go (title : String) (n : Nat) :
    ∀ (srcs : List (Option ReportData)) (i : Nat) (acc : SourcesAcc),
      ((List.enumFrom i srcs).foldl (processOneSource title n) acc).rendered
        = acc.rendered ++ (List.enumFrom i srcs).filterMap
            (fun p => p.2.map (fun rd => a11yReportName title n p.1 rd.pageKey))
      ∧ ((List.enumFrom i srcs).foldl (processOneSource title n) acc).a11yErrorCount
        = acc.a11yErrorCount + ((srcs.filterMap id).map scanErrorCount).sum
      ∧ ((List.enumFrom i srcs).foldl (processOneSource title n) acc).aggregated
        = acc.aggregated ++ ((srcs.filterMap id).map (fun rd => rd.errors)).flatten := by
  intro srcs
  induction srcs with
  | nil => intro i acc; simp
  | cons s rest ih =>
    intro i acc
    cases s with
    | none =>
      have hstep : processOneSource title n acc (i, none) = acc := rfl
      simpa [List.enumFrom_cons, hstep] using ih (i + 1) acc
    | some rd =>
      have hih := ih (i + 1) (processOneSource title n acc (i, some rd))
      by_cases hpos : rd.errors.length > 0
      · have hstep : processOneSource title n acc (i, some rd)
            = { rendered := acc.rendered ++ [a11yReportName title n i rd.pageKey],
                a11yReportPath := some (a11yReportName title n i rd.pageKey),
                a11yErrorCount := acc.a11yErrorCount + scanErrorCount rd,
                aggregated := acc.aggregated ++ rd.errors } := by
          simp [processOneSource, hpos]
        rw [hstep] at hih
        simp [List.enumFrom_cons, hstep, hih.1, hih.2.1, hih.2.2]
        omega
      · have hnil : rd.errors = [] :=
          List.length_eq_zero.mp (Nat.eq_zero_of_not_pos hpos)
        have hcount : scanErrorCount rd = 0 := by
          simp [scanErrorCount, hnil]
        have hstep : processOneSource title n acc (i, some rd)
            = { rendered := acc.rendered ++ [a11yReportName title n i rd.pageKey],
                a11yReportPath := some (a11yReportName title n i rd.pageKey),
                a11yErrorCount := acc.a11yErrorCount,
                aggregated := acc.aggregated } := by
          simp [processOneSource, hpos]
        rw [hstep] at hih
        simp [List.enumFrom_cons, hstep, hih.1, hih.2.1, hih.2.2, hnil, hcount]

/-- C6: a payload that fails to parse is skipped while every sibling
payload is still processed — the rendered per-scan reports, the error
count, and the aggregated error list of the test's record are exactly
those of the successfully parsed payloads (each keeping its own source
position for naming); concretely, a malformed first payload next to a
good second one still yields the second one's report and counts. -/
theorem claim6_skip_malformed :
    (∀ (title : String) (srcs : List (Option ReportData)),
      (processSources title srcs).rendered
        = srcs.enum.filterMap
            (fun p => p.2.map (fun rd => a11yReportName title srcs.length p.1 rd.pageKey))
      ∧ (processSources title srcs).a11yErrorCount
        = ((srcs.filterMap id).map scanErrorCount).sum
      ∧ (processSources title srcs).aggregated
        = ((srcs.filterMap id).map (fun rd => rd.errors)).flatten)
    ∧ processSources "my-test" [none, some exampleScan]
        = { rendered := ["example-com-2.html"],
            a11yReportPath := some "example-com-2.html",
            a11yErrorCount := 3,
            aggregated := exampleScan.errors } := by
  constructor
  · intro title srcs
    have h := processSources_go title srcs.length srcs 0
      { rendered := [], a11yReportPath := none, a11yErrorCount := 0, aggregated := [] }
    unfold processSources
    simpa [List.enum] using h
  · decide

/-! ## C7: driver-step flatten and merge -/

/-- The merge loop appends, after the pre-existing steps, exactly the
driver steps whose text is not already present verbatim. -/
lemma mergeSteps_eq (ex pw : List String) :
    mergeSteps ex pw = ex ++ pw.filter (fun s => decide (s ∉ ex)) := by
  unfold mergeSteps
  have main : ∀ (l : List String) (acc : List String),
      l.foldl (fun acc s => if s ∈ ex then acc else acc ++ [s]) acc
        = acc ++ l.filter (fun s => decide (s ∉ ex)) := by
    intro l
    induction l with
    | nil => intro acc; simp
    | cons s rest ih =>
      intro acc
      simp only [List.foldl_cons, List.filter_cons]
      by_cases hs : s ∈ ex
      · simp [hs, ih]
      · simp [hs, ih]
  exact main pw ex

/-- C7: the driver trace is flattened depth-first preserving order
(a step's title, when its category is `test.step`, precedes its
substeps'), and each flattened driver step not already present verbatim
in a target's step list is appended after the pre-existing steps — exact
string equality, every driver step ending up present; the claim's example
merge yields exactly `["Open menu", "Click item"]`. -/
theorem claim7_step_merge :
    (∀ (ex pw : List String),
        mergeSteps ex pw = ex ++ pw.filter (fun s => decide (s ∉ ex)))
    ∧ (∀ (ex pw : List String), (mergeSteps ex pw).take ex.length = ex)
    ∧ (∀ (ex pw : List String) (s : String), s ∈ pw → s ∈ mergeSteps ex pw)
    ∧ (∀ (c t : String) (subs : List PwStep),
        flattenStep (PwStep.node c t subs)
          = (if c = "test.step" then [t] else []) ++ getTestSteps subs)
    ∧ getTestSteps
        [PwStep.node "test.step" "Open menu" [PwStep.node "test.step" "Click item" []],
         PwStep.node "pw:api" "page.goto" []]
      = ["Open menu", "Click item"]
    ∧ mergeSteps ["Open menu"] ["Open menu", "Click item"]
      = ["Open menu", "Click item"] := by
  refine ⟨mergeSteps_eq, ?_, ?_, ?_, by decide, by decide⟩
  · intro ex pw
    rw [mergeSteps_eq]
    exact List.take_left ex _
  · intro ex pw s hs
    rw [mergeSteps_eq]
    by_cases hex : s ∈ ex
    · exact List.mem_append_left _ hex
    · exact List.mem_append_right _ (List.mem_filter.mpr ⟨hs, by simpa using hex⟩)
  · intro c t subs
    rfl

/-- Witness for C7: the appended driver step of the example is present in
the merged list. -/
theorem claim7_step_merge_witness :
    "Click item" ∈ mergeSteps ["Open menu"] ["Open menu", "Click item"] :=
  claim7_step_merge.2.2.1 ["Open menu"] ["Open menu", "Click item"] "Click item"
    (by decide)

/-! ## C8: bounded video poll and largest-candidate selection -/

/-- A ready value implies the attachment carried a path. -/
lemma readyVal_some_path (fs : FsModel) (a : VideoAttachment) (v : Nat)
    (h : readyVal fs a = some v) : ∃ p, a.path = some p := by
  unfold readyVal at h
  cases hp : a.path with
  | none => rw [hp] at h; exact absurd h (by simp)
  | some p => exact ⟨p, rfl⟩

/-- The candidate fold only grows its running maximum. -/
lemma videoStep_mono (fs : FsModel) (acc : Option String × Int) (a : VideoAttachment) :
    acc.2 ≤ (videoStep fs acc a).2 := by
  unfold videoStep
  cases h : readyVal fs a with
  | none => exact le_refl _
  | some s =>
    by_cases hgt : (s : Int) > acc.2
    · simp only [hgt, if_pos]
      exact le_of_lt hgt
    · simp only [hgt, if_neg, not_false_iff]
      exact le_refl _

/-- The step on a ready candidate compares its size against the running
maximum. -/
lemma videoStep_ready (fs : FsModel) (acc : Option String × Int)
    (a : VideoAttachment) (v : Nat) (h : readyVal fs a = some v) :
    videoStep fs acc a = if (v : Int) > acc.2 then (a.path, (v : Int)) else acc := by
  unfold videoStep
  rw [h]

/-- Invariant of the candidate fold: the running maximum dominates every
ready candidate processed, and the final pair is either untouched or the
pair of some processed ready candidate. -/
lemma videoFold_inv (fs : FsModel) :
    ∀ (l : List VideoAttachment) (acc : Option String × Int),
      (acc.2 ≤ (l.foldl (videoStep fs) acc).2)
      ∧ (∀ a ∈ l, ∀ v : Nat, readyVal fs a = some v →
          (v : Int) ≤ (l.foldl (videoStep fs) acc).2)
      ∧ ((l.foldl (videoStep fs) acc) = acc
          ∨ ∃ a ∈ l, ∃ p, a.path = some p ∧ ∃ v : Nat, readyVal fs a = some v
              ∧ (l.foldl (videoStep fs) acc) = (some p, (v : Int))) := by
  intro l
  induction l with
  | nil => intro acc; simp
  | cons a rest ih =>
    intro acc
    simp only [List.foldl_cons]
    obtain ⟨ih1, ih2, ih3⟩ := ih (videoStep fs acc a)
    refine ⟨le_trans (videoStep_mono fs acc a) ih1, ?_, ?_⟩
    · intro b hb v hv
      rcases List.mem_cons.mp hb with heq | hb
      · -- b = a: its value is bounded by the step result, then by the fold
        subst heq
        have hstep : (v : Int) ≤ (videoStep fs acc b).2 := by
          rw [videoStep_ready fs acc b v hv]
          by_cases hgt : (v : Int) > acc.2
          · simp [hgt]
          · rw [if_neg hgt]
            omega
        exact le_trans hstep ih1
      · exact ih2 b hb v hv
    · rcases ih3 with h3 | ⟨b, hb, p, hp, v, hv, heq⟩
      · -- the rest leaves the step result untouched: inspect the step
        rw [h3]
        cases hr : readyVal fs a with
        | none =>
          have : videoStep fs acc a = acc := by
            unfold videoStep
            rw [hr]
          rw [this]
          exact Or.inl rfl
        | some s =>
          rw [videoStep_ready fs acc a s hr]
          by_cases hgt : (s : Int) > acc.2
          · obtain ⟨p, hp⟩ := readyVal_some_path fs a s hr
            refine Or.inr ⟨a, List.mem_cons_self a rest, p, hp, s, hr, ?_⟩
            simp [hgt, hp]
          · rw [if_neg hgt]
            exact Or.inl rfl
      · exact Or.inr ⟨b, List.mem_cons_of_mem a hb, p, hp, v, hv, heq⟩

/-- C8: the video copy polls each candidate's existence and non-zero size
over a bounded window of 10 attempts; among candidates that become ready
it selects one of maximal byte size and returns its copied base name; and
it returns the empty string — never failing — when no candidate ever
becomes ready. -/
theorem claim8_video_selection :
    (∀ (fs : FsModel) (atts : List VideoAttachment),
        (∀ a ∈ atts, a.name = "video" → readyVal fs a = none) →
        copyTestVideo fs atts = "")
    ∧ (∀ (fs : FsModel) (atts : List VideoAttachment),
        copyTestVideo fs atts ≠ "" →
        ∃ a ∈ atts, a.name = "video" ∧ ∃ p, a.path = some p ∧ ∃ v : Nat,
          readyVal fs a = some v
          ∧ copyTestVideo fs atts = baseName p
          ∧ ∀ b ∈ atts, b.name = "video" → ∀ w : Nat,
              readyVal fs b = some w → w ≤ v) := by
  have hcv : ∀ (fs : FsModel) (atts : List VideoAttachment),
      copyTestVideo fs atts
        = match ((atts.filter (fun a => a.name = "video")).foldl
            (videoStep fs) (none, -1)).1 with
          | some p => baseName p
          | none => "" := fun _ _ => rfl
  constructor
  · intro fs atts hnone
    rw [hcv]
    obtain ⟨h1, h2, h3⟩ := videoFold_inv fs (atts.filter (fun a => a.name = "video"))
      (none, -1)
    rcases h3 with h3 | ⟨a, ha, p, hp, v, hv, heq⟩
    · rw [h3]
    · obtain ⟨hmem, hname⟩ := List.mem_filter.mp ha
      rw [hnone a hmem (by simpa using hname)] at hv
      exact absurd hv (by simp)
  · intro fs atts hne
    rw [hcv] at hne ⊢
    obtain ⟨h1, h2, h3⟩ := videoFold_inv fs (atts.filter (fun a => a.name = "video"))
      (none, -1)
    rcases h3 with h3 | ⟨a, ha, p, hp, v, hv, heq⟩
    · rw [h3] at hne
      exact absurd rfl hne
    · obtain ⟨hmem, hname⟩ := List.mem_filter.mp ha
      refine ⟨a, hmem, by simpa using hname, p, hp, v, hv, ?_, ?_⟩
      · rw [heq]
      · intro b hb hbname w hw
        have hble := h2 b (List.mem_filter.mpr ⟨hb, by simpa using hbname⟩) w hw
        rw [heq] at hble
        simp at hble
        exact_mod_cast hble

/-- The claim's file system: a 0-byte video that never becomes ready, a
512-byte one and a 2048-byte one, sizes stable across poll attempts. -/
def exampleFs : FsModel :=
  { sizeAt := fun p _ =>
      if p = "videos/v0.webm" then some 0
      else if p = "videos/v512.webm" then some 512
      else if p = "videos/v2048.webm" then some 2048
      else none }

/-- The claim's three candidate video attachments. -/
def exampleAttachments : List VideoAttachment :=
  [{ name := "video", path := some "videos/v0.webm" },
   { name := "video", path := some "videos/v512.webm" },
   { name := "video", path := some "videos/v2048.webm" }]

/-- Witness for C8: no candidate ready gives the empty result (applying
the theorem), and on the claim's {0, 512, 2048} example the 2048-byte
file is selected while the 0-byte file never polls ready. -/
theorem claim8_video_selection_witness :
    copyTestVideo { sizeAt := fun _ _ => none } exampleAttachments = ""
    ∧ copyTestVideo exampleFs exampleAttachments = "v2048.webm"
    ∧ pollReadyAttempt exampleFs "videos/v0.webm" = none := by
  refine ⟨?_, by decide, by decide⟩
  exact claim8_video_selection.1 { sizeAt := fun _ _ => none } exampleAttachments
    (by decide)

/-! ## C2: the run-end join barrier -/

/-- Whether an event is a per-test render (as opposed to the summary). -/
def isTestRender : REvent → Bool
  | .renderTest _ => true
  | .renderSummary => false

/-- Every event of a per-test task is a per-test render. -/
lemma taskEvents_testRender (title : String) (t : TestInput) :
    ∀ e ∈ taskEvents title t, isTestRender e = true := by
  intro e he
  unfold taskEvents at he
  rcases List.mem_append.mp he with h | h
  · obtain ⟨f, _, rfl⟩ := List.mem_map.mp h
    rfl
  · rw [List.mem_singleton.mp h]
    rfl

/-- The per-test tasks scheduled by the run's test-end events, one per
(test title, test input) pair. -/
def runTasks (tt : List (String × TestInput)) : List (List REvent) :=
  tt.map (fun p => taskEvents p.1 p.2)

/-- The scheduler invariant: tasks hold only per-test renders, the logged
per-test renders plus the pending ones account for all `total` of them,
and once the summary is in the log the barrier has fired — every task is
drained and the run-end continuation is spent. -/
def SchedInv (total : Nat) (s : SchedState) : Prop :=
  (∀ t ∈ s.tasks, ∀ e ∈ t, isTestRender e = true)
  ∧ (s.log.countP isTestRender + pendingCount s = total)
  ∧ (REvent.renderSummary ∈ s.log → s.endPending = false ∧ ∀ t ∈ s.tasks, t = [])

/-- One scheduler step preserves the invariant; the `endStep` case is the
`Promise.all` barrier of `onEnd`. -/
lemma schedStep_inv (total : Nat) (s s' : SchedState)
    (hstep : SchedStep s s') (hinv : SchedInv total s) : SchedInv total s' := by
  obtain ⟨hin1, hin2, hin3⟩ := hinv
  cases hstep with
  | taskStep ts₁ e rest ts₂ p log =>
    have hmid : (e :: rest) ∈ ts₁ ++ (e :: rest) :: ts₂ := by
      simp
    have hetest : isTestRender e = true :=
      hin1 (e :: rest) hmid e (List.mem_cons_self e rest)
    refine ⟨?_, ?_, ?_⟩
    · intro t ht e' he'
      rcases List.mem_append.mp ht with h | h
      · exact hin1 t (List.mem_append_left _ h) e' he'
      · rcases List.mem_cons.mp h with heq | h
        · subst heq
          exact hin1 (e :: t) hmid e' (List.mem_cons_of_mem e he')
        · exact hin1 t (List.mem_append_right _ (List.mem_cons_of_mem _ h)) e' he'
    · have hcnt : (log ++ [e]).countP isTestRender = log.countP isTestRender + 1 := by
        simp [List.countP_append, hetest]
      have hpend : pendingCount { tasks := ts₁ ++ (e :: rest) :: ts₂, endPending := p, log := log }
          = pendingCount { tasks := ts₁ ++ rest :: ts₂, endPending := p, log := log ++ [e] } + 1 := by
        simp only [pendingCount, List.map_append, List.sum_append, List.map_cons,
          List.sum_cons, List.length_cons]
        omega
      simp only [hcnt] at *
      simp only [pendingCount] at *
      omega
    · intro hsum
      rcases List.mem_append.mp hsum with h | h
      · obtain ⟨_, habs⟩ := hin3 h
        have : (e :: rest) = [] := habs (e :: rest) hmid
        exact absurd this (by simp)
      · have : REvent.renderSummary = e := List.mem_singleton.mp h
        rw [← this] at hetest
        exact absurd hetest (by simp [isTestRender])
  | endStep ts log hall =>
    refine ⟨hin1, ?_, ?_⟩
    · have hcnt : (log ++ [REvent.renderSummary]).countP isTestRender
          = log.countP isTestRender := by
        simp [List.countP_append, isTestRender]
      simp only [hcnt]
      simpa [pendingCount] using hin2
    · intro _
      exact ⟨rfl, hall⟩

/-- The invariant transfers along reachability. -/
lemma schedReach_inv (total : Nat) (s s' : SchedState)
    (h : SchedReach s s') (hinv : SchedInv total s) : SchedInv total s' := by
  induction h with
  | refl => exact hinv
  | tail _ hstep ih => exact schedStep_inv total _ _ hstep ih

/-- All-empty task lists hold no pending renders. -/
lemma pendingCount_eq_zero (s : SchedState) (h : ∀ t ∈ s.tasks, t = []) :
    pendingCount s = 0 := by
  unfold pendingCount
  rw [List.sum_eq_zero]
  intro x hx
  obtain ⟨t, ht, rfl⟩ := List.mem_map.mp hx
  rw [h t ht]
  rfl

/-- C2: from the moment the run-end continuation is pending with the
per-test tasks scheduled by the test-end events in flight, in every
reachable scheduler state whose log contains the summary render, every
per-test task is fully drained and all of their render events are already
in the log: no summary file is written while any per-test report render
is still pending. -/
theorem claim2_summary_after_all_tasks (tt : List (String × TestInput))
    (s : SchedState) (h : SchedReach (initSched (runTasks tt)) s)
    (hmem : REvent.renderSummary ∈ s.log) :
    (∀ t ∈ s.tasks, t = [])
    ∧ s.log.countP isTestRender = ((runTasks tt).map List.length).sum := by
  have hinit : SchedInv (((runTasks tt).map List.length).sum) (initSched (runTasks tt)) := by
    refine ⟨?_, ?_, ?_⟩
    · intro t ht e he
      obtain ⟨⟨title, ti⟩, _, rfl⟩ := List.mem_map.mp ht
      exact taskEvents_testRender title ti e he
    · simp [initSched, pendingCount]
    · intro habs
      exact absurd habs (by simp [initSched])
  obtain ⟨_, hcount, hsum⟩ := schedReach_inv _ _ _ h hinit
  obtain ⟨_, hempty⟩ := hsum hmem
  refine ⟨hempty, ?_⟩
  rw [pendingCount_eq_zero s hempty] at hcount
  omega

/-- A test with no a11y sources, whose task renders one execution report. -/
def demoTestInput : TestInput :=
  { browser := "chromium", status := TestStatus.passed, numResults := 1, sources := [] }

/-- A one-test run for the C2 witness. -/
def demoTasks : List (String × TestInput) := [("t", demoTestInput)]

/-- The single render event of the demo test's task. -/
def demoEvent : REvent := REvent.renderTest "execution-t.html"

/-- The state after the demo task ran and the run-end barrier fired. -/
def demoFinal : SchedState :=
  { tasks := [[]], endPending := false,
    log := [demoEvent, REvent.renderSummary] }

/-- The demo task performs its render. -/
def demoStep1 : SchedStep { tasks := [[demoEvent]], endPending := true, log := [] }
    { tasks := [[]], endPending := true, log := [demoEvent] } :=
  SchedStep.taskStep [] demoEvent [] [] true []

/-- The run-end barrier fires once the demo task is drained. -/
def demoStep2 : SchedStep { tasks := [[]], endPending := true, log := [demoEvent] }
    demoFinal :=
  SchedStep.endStep [[]] [demoEvent] (by simp)

/-- Witness for C2 at the concrete one-test run: in the final state all
tasks are drained and the log holds the one per-test render. -/
theorem claim2_summary_after_all_tasks_witness :
    (∀ t ∈ demoFinal.tasks, t = [])
    ∧ demoFinal.log.countP isTestRender = ((runTasks demoTasks).map List.length).sum := by
  have hrt : runTasks demoTasks = [[demoEvent]] := by decide
  have hreach : SchedReach (initSched (runTasks demoTasks)) demoFinal := by
    rw [hrt]
    exact Relation.ReflTransGen.tail (Relation.ReflTransGen.single demoStep1) demoStep2
  exact claim2_summary_after_all_tasks demoTasks demoFinal hreach (by decide)

end SnapAlly
